import Mathlib

/-!
Verification of the LinkedIn profile crawler (src/linkedinBot.py) against its
natural-language specification.

The Python source is embedded shallowly:
- pure text manipulation (extract_text_only, splitting, stripping) is modelled
  over List Char / String;
- BeautifulSoup lookups are modelled by records whose Option-valued fields hold
  the text (or attributes) a lookup would return, none meaning "node absent";
- Selenium lookups that raise are modelled with Except PyError;
- the crawl loop (get_data_from_google) is modelled as a recursion over the
  list of search-result pages the driver would visit.

Python word characters are modelled over the ASCII range (Char.isAlphanum plus
underscore), matching the behaviour of re's pattern class on the ASCII inputs
considered here.
-/

namespace LinkedinBot

/-- Errors the Python runtime can raise on the paths modelled here. -/
inductive PyError
  | attrError
  | indexError
  | typeError
  | reError
  | noSuchElement
deriving DecidableEq, Repr

/-! ## Text Normalizer (extract_text_only, lines 17-27) -/

/-- Characters stripped by Python str.strip with no arguments (ASCII range). -/
def isPySpace (c : Char) : Bool :=
  c = ' ' || c = '\t' || c = '\n' || c = '\r' || c = '\x0b' || c = '\x0c'

/-- Characters kept by the regex [^\w \.\-\+]+ used in extract_text_only:
word characters (alphanumeric or underscore), the space character, period,
hyphen, plus sign. -/
def isAllowedChar (c : Char) : Bool :=
  c.isAlphanum || c = '_' || c = ' ' || c = '.' || c = '-' || c = '+'

/-- Modelled from the spec: the allowed character set as the spec words it,
"alphanumeric, whitespace, period, hyphen, or plus sign". Used only to compare
the spec's contract with the code's actual character class. -/
def specAllowedChar (c : Char) : Bool :=
  c.isAlphanum || c.isWhitespace || c = '.' || c = '-' || c = '+'

/-- Python str.strip: drop leading and trailing whitespace. -/
def pstrip (l : List Char) : List Char :=
  ((l.dropWhile isPySpace).reverse.dropWhile isPySpace).reverse

/-- Core of extract_text_only on the character list of the input:
re.sub removes every character matched by [^\w \.\-\+]+, then strip. -/
def extractTextChars (l : List Char) : List Char :=
  pstrip (l.filter isAllowedChar)

/-- extract_text_only on a single string argument (lines 24-27). -/
def extract_text_only (s : String) : String :=
  (extractTextChars s.data).asString

/-- extract_text_only on a list/tuple argument: the sequence is first joined
with a single space (lines 22-23). -/
def extract_text_only_list (ws : List String) : String :=
  extract_text_only (String.intercalate " " ws)

/-- The head of a list does not satisfy q (vacuous for the empty list). -/
def headNot (q : Char → Bool) : List Char → Prop
  | [] => True
  | c :: _ => q c = false

/-! ## Character-level splitting (Python str.split with a one-character
separator, used for date ranges and the location line break) -/

/-- Python s.split(sep) for a single-character separator: always returns a
nonempty list of (possibly empty) segments. -/
def splitChar (sep : Char) : List Char → List (List Char)
  | [] => [[]]
  | c :: rest =>
    if c = sep then [] :: splitChar sep rest
    else
      match splitChar sep rest with
      | [] => [[c]]
      | h :: t => (c :: h) :: t

/-- Boolean prefix test on character lists. -/
def isPre : List Char → List Char → Bool
  | [], _ => true
  | _ :: _, [] => false
  | a :: p, c :: s => a == c && isPre p s

/-- Boolean substring (infix) test on character lists, modelling the Python
in-operator on strings that classifies profile sections. -/
def isSubstr (pat : List Char) : List Char → Bool
  | [] => pat.isEmpty
  | c :: rest => isPre pat (c :: rest) || isSubstr pat rest

/-! ## The regex engine fragment reachable from get_experience.

The duration text handed to re.sub as a pattern has already passed through
extract_text_only, so its characters are word characters, spaces, periods,
hyphens, and plus signs.  Within that alphabet the only regex metacharacters
are the period (match any character except newline) and the plus sign (one or
more of the preceding atom); every other character is a literal.  A plus with
no preceding atom, or a plus following an already-quantified atom, is a
pattern error (re.error). -/

inductive RAtom
  | lit (c : Char)
  | dot
deriving DecidableEq, Repr

inductive RPiece
  | once (a : RAtom)
  | plus (a : RAtom)
deriving DecidableEq, Repr

/-- Parse the pattern character list into pieces; none models re.error. -/
def parsePatGo : List Char → List RPiece → Option (List RPiece)
  | [], acc => some acc.reverse
  | c :: rest, acc =>
    if c = '.' then parsePatGo rest (.once .dot :: acc)
    else if c = '+' then
      match acc with
      | .once a :: tl => parsePatGo rest (.plus a :: tl)
      | _ => none
    else parsePatGo rest (.once (.lit c) :: acc)

def parsePat (p : List Char) : Option (List RPiece) :=
  parsePatGo p []

def atomMatches (a : RAtom) (c : Char) : Bool :=
  match a with
  | .lit d => c == d
  | .dot => !(c == '\n')

/-- Greedy one-or-more repetition of atom a followed by the continuation,
with backtracking: consume as many matching characters as possible, falling
back to the continuation at each position. -/
def matchPlus (a : RAtom) (cont : List Char → Option (List Char)) :
    List Char → Option (List Char)
  | [] => cont []
  | c :: s =>
    if atomMatches a c then
      match matchPlus a cont s with
      | some r => some r
      | none => cont (c :: s)
    else cont (c :: s)

/-- Match the piece list against a prefix of s; on success return the
remaining suffix. -/
def matchP : List RPiece → List Char → Option (List Char)
  | [], s => some s
  | .once a :: ps, s =>
    match s with
    | [] => none
    | c :: s2 => if atomMatches a c then matchP ps s2 else none
  | .plus a :: ps, s =>
    match s with
    | [] => none
    | c :: s2 => if atomMatches a c then matchPlus a (matchP ps) s2 else none

/-- re.sub(pattern, replacement-empty, s): scan left to right; at each
position replace the (greedy) match with nothing and continue after it; an
empty match advances one character. -/
def subAll (ps : List RPiece) (s : List Char) : List Char :=
  match s with
  | [] => []
  | c :: rest =>
    match matchP ps (c :: rest) with
    | some r =>
      if h : r.length < rest.length + 1 then subAll ps r
      else c :: subAll ps rest
    | none => c :: subAll ps rest
termination_by s.length
decreasing_by
  · simpa using h
  · simp

/-- Modelled from the spec: remove every occurrence of the substring p from s,
scanning left to right without overlap ("the duration substring
string-removed"). -/
def removeSubAll (p : List Char) (s : List Char) : List Char :=
  match s with
  | [] => []
  | c :: rest =>
    if h : 0 < p.length ∧ isPre p (c :: rest) = true then
      removeSubAll p ((c :: rest).drop p.length)
    else c :: removeSubAll p rest
termination_by s.length
decreasing_by
  · simp only [List.length_drop, List.length_cons]
    omega
  · simp

/-- Literal-only patterns: each character one compulsory literal atom. -/
def lits (p : List Char) : List RPiece :=
  p.map (fun c => .once (.lit c))

/-! ## Data model: records produced by the section extractors -/

/-- The per-experience dictionary built by get_experience (lines 57-66). -/
structure Experience where
  role : Option String
  company : Option String
  company_link : Option String
  start_date : Option String
  end_date : Option String
  duration : Option String
  location : Option String
  description : Option String
deriving DecidableEq, Repr

/-- What the BeautifulSoup lookups inside one li.experience-item yield.
none means the node is absent; job pairs the href attribute (itself optional)
with the anchor text. -/
structure ExpItem where
  roleText : Option String
  job : Option (Option String × String)
  dateRange : Option String
  duration : Option String
  location : Option String
  descLess : Option String
  descMore : Option String
deriving DecidableEq, Repr

/-- The per-project dictionary built by get_projects (lines 115-121).  The
Python dict is initialised with the five declared keys; line 123 then assigns
the normalized title to a new key named role, so the record carries that extra
field as well. -/
structure Project where
  project_name : Option String
  start_date : Option String
  end_date : Option String
  description : Option String
  project_link : Option String
  role : Option String
deriving DecidableEq, Repr

/-- BeautifulSoup lookups inside one li.personal-project; link pairs presence
of the button element with its optional href attribute. -/
structure ProjItem where
  title : Option String
  dateRange : Option String
  descLess : Option String
  descMore : Option String
  link : Option (Option String)
deriving DecidableEq, Repr

/-- The per-certificate dictionary built by get_certification (lines 159-164). -/
structure Certification where
  certification : Option String
  certified_by : Option String
  issued_on : Option String
  certificate_link : Option String
deriving DecidableEq, Repr

/-- BeautifulSoup lookups inside one li.profile-section-card of the
certifications block. -/
structure CertItem where
  title : Option String
  subtitle : Option String
  dateRange : Option String
  link : Option (Option String)
deriving DecidableEq, Repr

/-! ## Section extractors -/

/-- Sequential extraction over the list items: the first raising item aborts
the whole extractor, mirroring the uncaught exceptions inside the Python for
loops. -/
def mapExcept (f : α → Except PyError β) : List α → Except PyError (List β)
  | [] => .ok []
  | x :: xs =>
    match f x with
    | .error e => .error e
    | .ok y =>
      match mapExcept f xs with
      | .error e => .error e
      | .ok ys => .ok (y :: ys)

/-- get_about (lines 30-43): first paragraph of the summary block, newlines
replaced by periods, then normalized; absent paragraph returns the absent
find result unchanged. -/
def get_about (aboutP : Option String) : Option String :=
  aboutP.map (fun t =>
    extract_text_only ((t.data.map (fun c => if c = '\n' then '.' else c)).asString))

/-- Lines 67-72: the required role heading (normalized) and the optional
employer link with its href attribute and anchor text. -/
def expBase (rt : String) (job : Option (Option String × String)) :
    Experience :=
  match job with
  | none =>
    { role := some (extract_text_only rt), company := none,
      company_link := none, start_date := none, end_date := none,
      duration := none, location := none, description := none }
  | some (href, txt) =>
    { role := some (extract_text_only rt),
      company := some (extract_text_only txt), company_link := href,
      start_date := none, end_date := none, duration := none,
      location := none, description := none }

/-- Lines 73-78: optional date-range span, normalized then split on hyphen;
index 0 is read unguarded (safe: split is never empty) and index 1 is read
unguarded (IndexError when the split has a single segment). -/
def expAfterDates (e : Experience) (dr : Option String) :
    Except PyError Experience :=
  match dr with
  | none => .ok e
  | some d =>
    match (splitChar '-' (extract_text_only d).data)[1]? with
    | none => .error .indexError
    | some seg1 =>
      .ok { e with
        start_date := some (splitChar '-' (extract_text_only d).data).headI.asString,
        end_date := some seg1.asString }

/-- Lines 79-85: optional duration span; its normalized text is stored and
then handed to re.sub as the pattern to delete from the end-date text.
re.sub raises TypeError when the subject is None and re.error when the
pattern does not parse. -/
def expAfterDuration (e : Experience) (du : Option String) :
    Except PyError Experience :=
  match du with
  | none => .ok e
  | some u =>
    match e.end_date with
    | none => .error .typeError
    | some ed =>
      match parsePat (extract_text_only u).data with
      | none => .error .reError
      | some ps =>
        .ok { e with duration := some (extract_text_only u),
                     end_date := some (subAll ps ed.data).asString }

/-- Lines 86-89: optional location paragraph. -/
def expLocation (e : Experience) (loc : Option String) : Experience :=
  match loc with
  | none => e
  | some t => { e with location := some (extract_text_only t) }

/-- Lines 90-97: the collapsed description node gates the block; when it is
present the expanded node is preferred if it also exists. -/
def expDescription (e : Experience) (less more : Option String) : Experience :=
  match less with
  | none => e
  | some t =>
    match more with
    | none => { e with description := some (extract_text_only t) }
    | some m => { e with description := some (extract_text_only m) }

/-- One iteration of the get_experience loop (lines 56-99).  The role
heading is read with an unguarded .text (AttributeError when absent); the
remaining steps run in order with exceptions propagating. -/
def extractExpItem (it : ExpItem) : Except PyError Experience :=
  match it.roleText with
  | none => .error .attrError
  | some rt =>
    Except.bind (expAfterDates (expBase rt it.job) it.dateRange) fun e2 =>
      Except.bind (expAfterDuration e2 it.duration) fun e3 =>
        .ok (expDescription (expLocation e3 it.location) it.descLess it.descMore)

/-- get_experience (lines 46-101). -/
def get_experience (items : List ExpItem) : Except PyError (List Experience) :=
  mapExcept extractExpItem items

/-- Lines 131-138: same collapsed/expanded preference for projects. -/
def projDescription (p : Project) (less more : Option String) : Project :=
  match less with
  | none => p
  | some t =>
    match more with
    | none => { p with description := some (extract_text_only t) }
    | some m => { p with description := some (extract_text_only m) }

/-- Lines 115-123: the initial project dictionary after the title
assignment; line 123 stores the normalized title under the key role, leaving
project_name untouched. -/
def projBase (t : String) : Project :=
  { project_name := none, start_date := none, end_date := none,
    description := none, project_link := none,
    role := some (extract_text_only t) }

/-- Lines 124-130: optional date range; the second split segment is guarded
by a length check, so end_date stays absent when the split has one segment. -/
def projDates (p : Project) (dr : Option String) : Project :=
  match dr with
  | none => p
  | some d =>
    { p with
      start_date := some (splitChar '-' (extract_text_only d).data).headI.asString,
      end_date := ((splitChar '-' (extract_text_only d).data)[1]?).map
        List.asString }

/-- Lines 139-141: optional external link button. -/
def projLink (p : Project) (lk : Option (Option String)) : Project :=
  match lk with
  | none => p
  | some href => { p with project_link := href }

/-- One iteration of the get_projects loop (lines 114-143).  The title
heading is read with an unguarded .text (AttributeError when absent). -/
def extractProjItem (it : ProjItem) : Except PyError Project :=
  match it.title with
  | none => .error .attrError
  | some t =>
    .ok (projLink
      (projDescription (projDates (projBase t) it.dateRange)
        it.descLess it.descMore)
      it.link)

/-- get_projects (lines 104-145). -/
def get_projects (items : List ProjItem) : Except PyError (List Project) :=
  mapExcept extractProjItem items

/-- One iteration of the get_certification loop (lines 158-178): every lookup
is guarded, so certification extraction never raises. -/
def extractCertItem (it : CertItem) : Certification :=
  { certification := it.title.map extract_text_only,
    certified_by := it.subtitle.map extract_text_only,
    issued_on := it.dateRange.map extract_text_only,
    certificate_link :=
      match it.link with
      | none => none
      | some h => h }

/-- get_certification (lines 148-180). -/
def get_certification (items : List CertItem) : List Certification :=
  items.map extractCertItem

/-! ## Basic Identity Extractor (get_basic_details, lines 183-239) -/

/-- The four fixed-position lookups of get_basic_details; none means the
find_element call raises. -/
structure UserDetailsPage where
  nameNode : Option String
  descNode : Option String
  locNode : Option String
  companyNode : Option String
deriving DecidableEq, Repr

/-- The dictionary returned by get_basic_details.  Line 234 wraps the name in
a one-element tuple, modelled as a one-element list. -/
structure BasicData where
  user_name : List String
  user_description : String
  user_location : String
  current_company : String
deriving DecidableEq, Repr

/-- get_basic_details: each lookup independently falls back to the empty
string on failure; only the name is normalized; a location containing a line
break is truncated to the text before the first break (lines 199-239). -/
def get_basic_details (p : UserDetailsPage) : BasicData :=
  let user_name :=
    match p.nameNode with
    | some t => extract_text_only t
    | none => ""
  let user_description :=
    match p.descNode with
    | some t => t
    | none => ""
  let user_location :=
    match p.locNode with
    | some t =>
      if t.data.contains '\n' then (splitChar '\n' t.data).headI.asString else t
    | none => ""
  let current_company :=
    match p.companyNode with
    | some t => t
    | none => ""
  { user_name := [user_name], user_description := user_description,
    user_location := user_location, current_company := current_company }

/-! ## Crawl Controller (get_data_from_google, lines 242-403) -/

/-- The user_data dictionary assembled for one profile (lines 303-314,
374-378). -/
structure UserData where
  name : Option String
  role : Option String
  currently_doing : Option String
  current_company : Option String
  about : Option String
  linkedin_profile : Option String
  location : Option String
  experience : Option (List Experience)
  certifications : Option (List Certification)
  projects : Option (List Project)
deriving DecidableEq, Repr

/-- One section element of a profile page: its class attribute and the soup
lookups the four extractors would perform on its outer HTML. -/
structure SectionData where
  cls : String
  aboutP : Option String
  expItems : List ExpItem
  projItems : List ProjItem
  certItems : List CertItem
deriving DecidableEq, Repr

/-- Lines 354-372: route one section by substring tests on its class
attribute; the four tests are independent ifs, and extractor exceptions
propagate. -/
def routeSection (ud : UserData) (sec : SectionData) : Except PyError UserData :=
  let ud1 :=
    if isSubstr "summary".data sec.cls.data then
      { ud with about := get_about sec.aboutP }
    else ud
  match
    (if isSubstr "experience".data sec.cls.data then
      match get_experience sec.expItems with
      | .error e => .error e
      | .ok es => .ok { ud1 with experience := some es }
    else .ok ud1 : Except PyError UserData) with
  | .error e => .error e
  | .ok ud2 =>
    match
      (if isSubstr "projects".data sec.cls.data then
        match get_projects sec.projItems with
        | .error e => .error e
        | .ok pr => .ok { ud2 with projects := some pr }
      else .ok ud2 : Except PyError UserData) with
    | .error e => .error e
    | .ok ud3 =>
      .ok (if isSubstr "certifications".data sec.cls.data then
            { ud3 with certifications := some (get_certification sec.certItems) }
          else ud3)

def routeSections : UserData → List SectionData → Except PyError UserData
  | ud, [] => .ok ud
  | ud, sec :: rest =>
    match routeSection ud sec with
    | .error e => .error e
    | .ok ud2 => routeSections ud2 rest

/-- One search-result link and what opening it yields.  navOk covers the try
block of lines 316-335 (href read, click, landmark wait, user-details
lookup); landmark is the guarded section-landmark lookup of lines 339-345
(none when find_element raises, otherwise the is_displayed value). -/
structure LinkPage where
  href : Option String
  navOk : Bool
  basic : UserDetailsPage
  landmark : Option Bool
  sections : List SectionData
deriving DecidableEq, Repr

/-- The empty user_data dictionary of lines 303-314 with the profile link
recorded (line 317). -/
def initUserData (href : Option String) : UserData :=
  { name := none, role := none, currently_doing := none,
    current_company := none, about := none, linkedin_profile := href,
    location := none, experience := none, certifications := none,
    projects := none }

/-- Lines 301-384: process one result link.  Navigation failure and landmark
failure are absorbed (continue); extractor exceptions propagate; otherwise
the assembled record is appended to the accumulator. -/
def processLink (role : String) (acc : List UserData) (lk : LinkPage) :
    Except PyError (List UserData) :=
  if lk.navOk then
    let basic := get_basic_details lk.basic
    match lk.landmark with
    | none => .ok acc
    | some hasSections =>
      let ud0 := initUserData lk.href
      match (if hasSections then routeSections ud0 lk.sections else .ok ud0) with
      | .error e => .error e
      | .ok ud1 =>
        .ok (acc ++ [{ ud1 with
          name := some basic.user_name.headI,
          currently_doing := some basic.user_description,
          location := some basic.user_location,
          current_company := some basic.current_company,
          role := some role }])
  else .ok acc

def processLinks (role : String) : List LinkPage → List UserData →
    Except PyError (List UserData)
  | [], acc => .ok acc
  | lk :: rest, acc =>
    match processLink role acc lk with
    | .error e => .error e
    | .ok acc2 => processLinks role rest acc2

/-- State of the pagination control with id pnnext on one results page:
absent (find_element raises NoSuchElementException), present but hidden
(is_displayed false), or present and visible. -/
inductive NextControl
  | absent
  | hidden
  | visible
deriving DecidableEq, Repr

/-- One search-results page: the outcome of the bounded wait for result links
(none when the wait times out) and the state of the next-page control. -/
structure ResultsPage where
  links : Option (List LinkPage)
  nextControl : NextControl
deriving DecidableEq, Repr

/-- The while loop of lines 283-390 over the successive results pages.  A
links-wait timeout ends the loop normally (lines 294-298); after the links of
a page are processed, line 387 reads the pnnext element unguarded: absent
raises, hidden ends the loop, visible clicks through to the next page. -/
def crawlLoop (role : String) : List ResultsPage → List UserData →
    Except PyError (List UserData)
  | [], acc => .ok acc
  | pg :: rest, acc =>
    match pg.links with
    | none => .ok acc
    | some lks =>
      match processLinks role lks acc with
      | .error e => .error e
      | .ok acc2 =>
        match pg.nextControl with
        | .absent => .error .noSuchElement
        | .hidden => .ok acc2
        | .visible => crawlLoop role rest acc2

/-- Observable outcome of one call of get_data_from_google: the rows handed
to the output sink (none when the run died with an exception), whether
driver.quit() on line 393 executed, and the escaping exception if any. -/
structure CrawlResult where
  persisted : Option (List UserData)
  quitCalled : Bool
  error : Option PyError
deriving DecidableEq, Repr

/-- get_data_from_google (lines 242-403): run the pagination loop; on normal
loop exit the driver is quit and the data is written; an uncaught exception
escapes before either happens. -/
def get_data_from_google (role : String) (pages : List ResultsPage) :
    CrawlResult :=
  match crawlLoop role pages [] with
  | .ok data => { persisted := some data, quitCalled := true, error := none }
  | .error e => { persisted := none, quitCalled := false, error := some e }

/-! ## Concrete inputs used by witnesses and counterexamples -/

/-- A user-details element on which every lookup fails. -/
def emptyDetails : UserDetailsPage :=
  { nameNode := none, descNode := none, locNode := none, companyNode := none }

/-- A user-details element where only the name lookup fails. -/
def nameFailDetails : UserDetailsPage :=
  { nameNode := none, descNode := some "d", locNode := some "l",
    companyNode := some "c" }

/-- A user-details element where only the description lookup succeeds. -/
def descOnlyDetails : UserDetailsPage :=
  { nameNode := none, descNode := some "d", locNode := none,
    companyNode := none }

/-- A project list item carrying only a title heading. -/
def alphaProjItem : ProjItem :=
  { title := some "Alpha", dateRange := none, descLess := none,
    descMore := none, link := none }

/-- The record get_projects builds for alphaProjItem. -/
def alphaProjRecord : Project :=
  { project_name := none, start_date := none, end_date := none,
    description := none, project_link := none, role := some "Alpha" }

/-- A result link whose navigation try-block fails (line 332). -/
def skipLink : LinkPage :=
  { href := none, navOk := false, basic := emptyDetails, landmark := none,
    sections := [] }

/-- A results page whose links resolve but whose pnnext control is absent:
the final page of a result set. -/
def lastPage : ResultsPage :=
  { links := some [skipLink], nextControl := .absent }

/-- A result link that opens fine but whose content-section landmark lookup
raises (line 344). -/
def noSectionsLink : LinkPage :=
  { href := none, navOk := true, basic := emptyDetails, landmark := none,
    sections := [] }

/-- Experience item whose duration text contains a regex metacharacter that
changes the meaning of the removal on line 83. -/
def regexDurationItem : ExpItem :=
  { roleText := some "r", job := none, dateRange := some "2020-aXc",
    duration := some "a.c", location := none, descLess := none,
    descMore := none }

/-- Experience item with a literal duration, for the witness. -/
def literalDurationItem : ExpItem :=
  { roleText := some "r", job := none, dateRange := some "2019-2021",
    duration := some "21", location := none, descLess := none,
    descMore := none }

/-- Experience item whose date-range text has no hyphen. -/
def noHyphenExpItem : ExpItem :=
  { roleText := some "r", job := none, dateRange := some "2020",
    duration := none, location := none, descLess := none, descMore := none }

/-- Experience item with a hyphenated date range and no duration. -/
def hyphenExpItem : ExpItem :=
  { roleText := some "r", job := none, dateRange := some "2019-2021",
    duration := none, location := none, descLess := none, descMore := none }

/-- Project item whose date-range text has no hyphen. -/
def noHyphenProjItem : ProjItem :=
  { title := some "p", dateRange := some "2020", descLess := none,
    descMore := none, link := none }

/-- Experience item carrying both a collapsed and an expanded description. -/
def bothDescExpItem : ExpItem :=
  { roleText := some "r", job := none, dateRange := none, duration := none,
    location := none, descLess := some "short", descMore := some "long" }

/-- The experience record bothDescExpItem extracts to. -/
def bothDescExpRecord : Experience :=
  { role := some "r", company := none, company_link := none,
    start_date := none, end_date := none, duration := none, location := none,
    description := some "long" }

/-- The pattern the duration text a.c parses to: literal a, any character,
literal c. -/
def acPattern : List RPiece :=
  RPiece.once (RAtom.lit 'a') :: RPiece.once RAtom.dot ::
    RPiece.once (RAtom.lit 'c') :: []

/-- The experience record regexDurationItem extracts to: the whole end
segment aXc is matched by the pattern a.c and deleted. -/
def regexDurationRecord : Experience :=
  { role := some "r", company := none, company_link := none,
    start_date := some "2020",
    end_date := some (List.asString (subAll acPattern ('a' :: 'X' :: 'c' :: []))),
    duration := some "a.c", location := none, description := none }

/-! ## Helper lemmas on stripping, filtering and splitting -/

theorem dropWhile_mem {q : Char → Bool} {l : List Char} {c : Char}
    (h : c ∈ l.dropWhile q) : c ∈ l := by
  induction l with
  | nil => simp at h
  | cons a t ih =>
    rw [List.dropWhile_cons] at h
    by_cases hq : q a = true
    · simp only [hq, if_true] at h
      exact List.mem_cons_of_mem a (ih h)
    · simp only [hq, if_false] at h
      exact h

theorem pstrip_mem {l : List Char} {c : Char} (h : c ∈ pstrip l) : c ∈ l := by
  unfold pstrip at h
  rw [List.mem_reverse] at h
  have h2 := dropWhile_mem h
  rw [List.mem_reverse] at h2
  exact dropWhile_mem h2

theorem dropWhile_eq_self {q : Char → Bool} {l : List Char}
    (h : headNot q l) : l.dropWhile q = l := by
  cases l with
  | nil => rfl
  | cons a t =>
    rw [List.dropWhile_cons]
    simp only [headNot] at h
    simp [h]

theorem headNot_dropWhile (q : Char → Bool) (l : List Char) :
    headNot q (l.dropWhile q) := by
  induction l with
  | nil => trivial
  | cons a t ih =>
    rw [List.dropWhile_cons]
    by_cases hq : q a = true
    · simpa [hq] using ih
    · simp only [hq, if_false]
      simpa [headNot] using eq_false_of_ne_true hq

theorem headNot_of_prefix {q : Char → Bool} {x y : List Char}
    (hp : x <+: y) (h : headNot q y) : headNot q x := by
  cases x with
  | nil => trivial
  | cons a t =>
    obtain ⟨s, hs⟩ := hp
    subst hs
    exact h

theorem dropWhile_suffix (q : Char → Bool) (l : List Char) :
    l.dropWhile q <:+ l := by
  induction l with
  | nil => exact List.suffix_refl _
  | cons a t ih =>
    rw [List.dropWhile_cons]
    by_cases hq : q a = true
    · simp only [hq, if_true]
      exact ih.trans (List.suffix_cons a t)
    · simp [hq]

theorem pstrip_idem (l : List Char) : pstrip (pstrip l) = pstrip l := by
  have hA : headNot isPySpace (l.dropWhile isPySpace) := headNot_dropWhile _ _
  have hB : headNot isPySpace
      ((l.dropWhile isPySpace).reverse.dropWhile isPySpace) :=
    headNot_dropWhile _ _
  have hSuf : (l.dropWhile isPySpace).reverse.dropWhile isPySpace <:+
      (l.dropWhile isPySpace).reverse := dropWhile_suffix _ _
  have hPre : ((l.dropWhile isPySpace).reverse.dropWhile isPySpace).reverse <+:
      l.dropWhile isPySpace := by
    obtain ⟨t, ht⟩ := hSuf
    refine ⟨t.reverse, ?_⟩
    rw [← List.reverse_append, ht, List.reverse_reverse]
  have hS : headNot isPySpace
      ((l.dropWhile isPySpace).reverse.dropWhile isPySpace).reverse :=
    headNot_of_prefix hPre hA
  show pstrip ((l.dropWhile isPySpace).reverse.dropWhile isPySpace).reverse =
    ((l.dropWhile isPySpace).reverse.dropWhile isPySpace).reverse
  unfold pstrip
  rw [dropWhile_eq_self hS, List.reverse_reverse, dropWhile_eq_self hB]

theorem extractTextChars_idem (l : List Char) :
    extractTextChars (extractTextChars l) = extractTextChars l := by
  unfold extractTextChars
  have hmem : ∀ c ∈ pstrip (l.filter isAllowedChar), isAllowedChar c = true := by
    intro c hc
    exact (List.mem_filter.mp (pstrip_mem hc)).2
  rw [List.filter_eq_self.mpr hmem]
  exact pstrip_idem _

theorem splitChar_no_sep {sep : Char} {l : List Char} (h : sep ∉ l) :
    splitChar sep l = [l] := by
  induction l with
  | nil => rfl
  | cons c rest ih =>
    have hc : c ≠ sep := fun he => h (he ▸ List.mem_cons_self c rest)
    have hrest : sep ∉ rest := fun hm => h (List.mem_cons_of_mem c hm)
    simp only [splitChar, hc, if_false, ih hrest]

/-! ## Helper lemmas on the regex fragment -/

theorem subAll_nil (ps : List RPiece) : subAll ps [] = [] := by
  rw [subAll]

theorem removeSubAll_nil (p : List Char) : removeSubAll p [] = [] := by
  rw [removeSubAll]

theorem subAll_cons_some {ps : List RPiece} {r : List Char} {c : Char}
    {rest : List Char} (h : matchP ps (c :: rest) = some r)
    (hlt : r.length < rest.length + 1) :
    subAll ps (c :: rest) = subAll ps r := by
  rw [subAll, h]
  simp [hlt]

theorem subAll_cons_stay {ps : List RPiece} {r : List Char} {c : Char}
    {rest : List Char} (h : matchP ps (c :: rest) = some r)
    (hge : ¬ r.length < rest.length + 1) :
    subAll ps (c :: rest) = c :: subAll ps rest := by
  rw [subAll, h]
  simp [hge]

theorem subAll_cons_none {ps : List RPiece} {c : Char} {rest : List Char}
    (h : matchP ps (c :: rest) = none) :
    subAll ps (c :: rest) = c :: subAll ps rest := by
  rw [subAll, h]

theorem removeSubAll_cons_hit {p : List Char} {c : Char} {rest : List Char}
    (hp : 0 < p.length) (hpre : isPre p (c :: rest) = true) :
    removeSubAll p (c :: rest) = removeSubAll p ((c :: rest).drop p.length) := by
  rw [removeSubAll]
  simp [hp, hpre]

theorem removeSubAll_cons_miss {p : List Char} {c : Char} {rest : List Char}
    (h : ¬ (0 < p.length ∧ isPre p (c :: rest) = true)) :
    removeSubAll p (c :: rest) = c :: removeSubAll p rest := by
  rw [removeSubAll]
  simp only [h, dite_false]

theorem matchP_lits (p : List Char) : ∀ s : List Char,
    matchP (lits p) s = if isPre p s then some (s.drop p.length) else none := by
  induction p with
  | nil => intro s; simp [lits, matchP, isPre]
  | cons a p ih =>
    intro s
    have hl : lits (a :: p) = .once (.lit a) :: lits p := rfl
    rw [hl]
    cases s with
    | nil => simp [matchP, isPre]
    | cons c s2 =>
      simp only [matchP, atomMatches, isPre]
      by_cases hca : c = a
      · subst hca
        simp only [beq_self_eq_true, if_true, Bool.true_and]
        rw [ih s2]
        simp [List.drop_succ_cons]
      · have h1 : (c == a) = false := by simp [hca]
        have h2 : (a == c) = false := by simp [Ne.symm hca]
        simp [h1, h2]

theorem isPre_length : ∀ {p s : List Char}, isPre p s = true →
    p.length ≤ s.length := by
  intro p
  induction p with
  | nil => intro s _; simp
  | cons a q ih =>
    intro s h
    cases s with
    | nil => simp [isPre] at h
    | cons c s2 =>
      simp only [isPre, Bool.and_eq_true] at h
      have := ih h.2
      simp only [List.length_cons]
      omega

theorem subAll_lits_empty : ∀ s : List Char, subAll (lits []) s = s := by
  intro s
  induction s with
  | nil => rw [subAll]
  | cons c rest ih =>
    have hm : matchP (lits []) (c :: rest) = some (c :: rest) := rfl
    rw [subAll_cons_stay hm (by simp), ih]

theorem removeSubAll_empty : ∀ s : List Char, removeSubAll [] s = s := by
  intro s
  induction s with
  | nil => rw [removeSubAll]
  | cons c rest ih =>
    rw [removeSubAll_cons_miss (by simp), ih]

theorem subAll_lits_aux : ∀ (n : Nat) (p s : List Char), s.length ≤ n →
    subAll (lits p) s = removeSubAll p s := by
  intro n
  induction n with
  | zero =>
    intro p s hs
    have hnil : s = [] := List.length_eq_zero.mp (Nat.le_zero.mp hs)
    subst hnil
    rw [subAll_nil, removeSubAll_nil]
  | succ m ih =>
    intro p s hs
    cases s with
    | nil => rw [subAll_nil, removeSubAll_nil]
    | cons c rest =>
      by_cases hp : p = []
      · subst hp
        rw [subAll_lits_empty, removeSubAll_empty]
      · have hp1 : 0 < p.length := List.length_pos.mpr hp
        by_cases hpre : isPre p (c :: rest) = true
        · have hm : matchP (lits p) (c :: rest) =
              some ((c :: rest).drop p.length) := by
            rw [matchP_lits, if_pos hpre]
          have hple : p.length ≤ rest.length + 1 := by
            have := isPre_length hpre
            simpa using this
          have hlt : ((c :: rest).drop p.length).length < rest.length + 1 := by
            simp only [List.length_drop, List.length_cons]
            omega
          rw [subAll_cons_some hm hlt, removeSubAll_cons_hit hp1 hpre]
          apply ih
          simp only [List.length_drop, List.length_cons]
          simp only [List.length_cons] at hs
          omega
        · have hm : matchP (lits p) (c :: rest) = none := by
            rw [matchP_lits, if_neg hpre]
          have hr : rest.length ≤ m := by
            simp only [List.length_cons] at hs
            omega
          rw [subAll_cons_none hm, removeSubAll_cons_miss (fun hh => hpre hh.2),
            ih p rest hr]

theorem subAll_lits (p s : List Char) :
    subAll (lits p) s = removeSubAll p s :=
  subAll_lits_aux s.length p s le_rfl

theorem parsePatGo_noMeta : ∀ (p : List Char) (acc : List RPiece),
    (∀ c ∈ p, c ≠ '.' ∧ c ≠ '+') →
    parsePatGo p acc = some (acc.reverse ++ lits p) := by
  intro p
  induction p with
  | nil => intro acc _; simp [parsePatGo, lits]
  | cons c rest ih =>
    intro acc h
    have hc := h c (List.mem_cons_self c rest)
    have hrest : ∀ d ∈ rest, d ≠ '.' ∧ d ≠ '+' :=
      fun d hd => h d (List.mem_cons_of_mem c hd)
    simp only [parsePatGo, hc.1, hc.2, if_false]
    rw [ih _ hrest]
    simp [lits, List.reverse_cons, List.append_assoc]

theorem parsePat_noMeta {p : List Char} (h : ∀ c ∈ p, c ≠ '.' ∧ c ≠ '+') :
    parsePat p = some (lits p) := by
  unfold parsePat
  rw [parsePatGo_noMeta p [] h]
  rfl

/-! ## Helper lemmas on the extractors -/

theorem exbind_ok {α β : Type} (a : α) (f : α → Except PyError β) :
    Except.bind (Except.ok a) f = f a := rfl

theorem exbind_err {α β : Type} (e : PyError) (f : α → Except PyError β) :
    Except.bind (Except.error e) f = Except.error e := rfl

theorem exceptBind_ok {α β : Type} {x : Except PyError α}
    {f : α → Except PyError β} {b : β} (h : Except.bind x f = .ok b) :
    ∃ a, x = .ok a ∧ f a = .ok b := by
  cases x with
  | error e => rw [exbind_err] at h; exact absurd h (by simp)
  | ok a => exact ⟨a, rfl, by rwa [exbind_ok] at h⟩

theorem expLocation_end_date (e : Experience) (loc : Option String) :
    (expLocation e loc).end_date = e.end_date := by
  cases loc <;> rfl

theorem expDescription_end_date (e : Experience) (less more : Option String) :
    (expDescription e less more).end_date = e.end_date := by
  cases less <;> cases more <;> rfl

theorem projDescription_end_date (p : Project) (less more : Option String) :
    (projDescription p less more).end_date = p.end_date := by
  cases less <;> cases more <;> rfl

theorem projLink_end_date (p : Project) (lk : Option (Option String)) :
    (projLink p lk).end_date = p.end_date := by
  cases lk <;> rfl

theorem projLink_description (p : Project) (lk : Option (Option String)) :
    (projLink p lk).description = p.description := by
  cases lk <;> rfl

theorem mapExcept_error_of_mem {α β : Type} {f : α → Except PyError β} :
    ∀ {l : List α} {x : α}, x ∈ l → (∃ e0, f x = .error e0) →
    ∃ e, mapExcept f l = .error e := by
  intro l
  induction l with
  | nil => intro x hx _; exact absurd hx (List.not_mem_nil x)
  | cons a t ih =>
    intro x hx hfe
    rcases hfa : f a with e | y
    · exact ⟨e, by simp [mapExcept, hfa]⟩
    · rcases List.mem_cons.mp hx with rfl | hxt
      · obtain ⟨e0, he0⟩ := hfe
        rw [hfa] at he0
        exact absurd he0 (by simp)
      · obtain ⟨e, hmap⟩ := ih hxt hfe
        exact ⟨e, by simp [mapExcept, hfa, hmap]⟩

/-! ## Claim C3 -/

/-- Claim C3, counterexample: the code keeps the underscore (it is a regex
word character), but the underscore is outside the spec's allowed set of
alphanumeric, whitespace, period, hyphen, plus; so the output of the
normalizer can contain a character outside the set the claim allows. -/
theorem extract_underscore_outside_spec_set :
    '_' ∈ (extract_text_only "a_b").data ∧ specAllowedChar '_' = false := by
  constructor
  · decide
  · decide

/-- Claim C3 as amended: every character of the normalizer's output lies in
the character class the code actually keeps: word characters (alphanumeric or
underscore), the space character, period, hyphen, plus sign. -/
theorem extract_output_chars_allowed (s : String) (c : Char)
    (h : c ∈ (extract_text_only s).data) : isAllowedChar c = true := by
  have h2 : c ∈ extractTextChars s.data := h
  exact (List.mem_filter.mp (pstrip_mem h2)).2

/-- Witness for extract_output_chars_allowed at a concrete input. -/
theorem extract_output_chars_allowed_witness : isAllowedChar 'a' = true :=
  extract_output_chars_allowed "ab" 'a' (by decide)

/-! ## Claim C4 -/

/-- Claim C4: the Text Normalizer is idempotent; normalizing an
already-normalized string returns it unchanged, for every string including
the empty and pure-whitespace ones. -/
theorem extract_text_only_idempotent (s : String) :
    extract_text_only (extract_text_only s) = extract_text_only s := by
  show (extractTextChars (extract_text_only s).data).asString = _
  have h : (extract_text_only s).data = extractTextChars s.data := rfl
  rw [h, extractTextChars_idem]
  rfl

/-! ## Claim C6 -/

/-- Claim C6, counterexample: when the fixed-position name lookup fails, the
stored name is the empty string (wrapped in the one-element tuple of line
234), not an absent marker, even though the other three lookups succeed. -/
theorem basic_details_missing_name_is_empty_string :
    (get_basic_details nameFailDetails).user_name = [""] := rfl

/-- Claim C6 as amended: a failed fixed-position lookup stores the empty
string for that field (the name additionally wrapped as a one-element
tuple), not an absent marker; each lookup is independently fault-tolerant,
so the other fields are still extracted from their own nodes. -/
theorem basic_details_empty_on_failure :
    (∀ p : UserDetailsPage, p.nameNode = none →
      (get_basic_details p).user_name = [""]) ∧
    (∀ p : UserDetailsPage, p.descNode = none →
      (get_basic_details p).user_description = "") ∧
    (∀ p : UserDetailsPage, p.locNode = none →
      (get_basic_details p).user_location = "") ∧
    (∀ p : UserDetailsPage, p.companyNode = none →
      (get_basic_details p).current_company = "") ∧
    (∀ (p : UserDetailsPage) (t : String), p.nameNode = some t →
      (get_basic_details p).user_name = [extract_text_only t]) ∧
    (∀ (p : UserDetailsPage) (t : String), p.descNode = some t →
      (get_basic_details p).user_description = t) ∧
    (∀ (p : UserDetailsPage) (t : String), p.companyNode = some t →
      (get_basic_details p).current_company = t) := by
  refine ⟨?_, ?_, ?_, ?_, ?_, ?_, ?_⟩
  · intro p h; simp [get_basic_details, h]
  · intro p h; simp [get_basic_details, h]
  · intro p h; simp [get_basic_details, h]
  · intro p h; simp [get_basic_details, h]
  · intro p t h; simp [get_basic_details, h]
  · intro p t h; simp [get_basic_details, h]
  · intro p t h; simp [get_basic_details, h]

/-- Witness for basic_details_empty_on_failure at concrete pages. -/
theorem basic_details_empty_on_failure_witness :
    (get_basic_details emptyDetails).user_name = [""] ∧
    (get_basic_details descOnlyDetails).user_description = "d" :=
  ⟨basic_details_empty_on_failure.1 emptyDetails rfl,
   basic_details_empty_on_failure.2.2.2.2.2.1 descOnlyDetails "d" rfl⟩

/-! ## Claim C7 -/

/-- Claim C7: when a profile page opened from a result link fails the
content-section landmark check (the find_element of line 340 raises), no
record for that profile is appended and the crawl continues with the
remaining links on the page. -/
theorem landmark_failure_skips_profile (role : String) (lk : LinkPage)
    (rest : List LinkPage) (acc : List UserData)
    (hnav : lk.navOk = true) (hlm : lk.landmark = none) :
    processLinks role (lk :: rest) acc = processLinks role rest acc := by
  have hpl : processLink role acc lk = .ok acc := by
    unfold processLink
    rw [hnav, hlm]
    simp
  simp [processLinks, hpl]

/-- Witness for landmark_failure_skips_profile at a concrete link. -/
theorem landmark_failure_skips_profile_witness :
    processLinks "x" [noSectionsLink] [] = processLinks "x" [] [] :=
  landmark_failure_skips_profile "x" noSectionsLink [] [] rfl rfl

/-! ## Claim C8 -/

/-- Claim C8, divergence: line 123 assigns the normalized title to a fresh
key named role, so the declared project_name field of the returned record
stays absent while the stray role field carries the title. -/
theorem projects_title_stored_under_role_key :
    get_projects [alphaProjItem] = .ok [alphaProjRecord] ∧
    alphaProjRecord.project_name = none ∧
    alphaProjRecord.role = some (extract_text_only "Alpha") := by
  refine ⟨rfl, rfl, rfl⟩

/-! ## Claim C1 -/

/-- Claim C1, divergence: on a results page whose pnnext control is absent,
line 387 raises NoSuchElementException instead of setting has-next-page to
false; the exception escapes get_data_from_google and driver.quit() is
skipped. -/
theorem crawl_next_absent_raises :
    get_data_from_google "x" [lastPage] =
      { persisted := none, quitCalled := false,
        error := some .noSuchElement } := rfl

/-! ## Claim C2 -/

/-- Claim C2, counterexample: a run ended by an uncaught propagated failure
(the absent pnnext control) terminates without releasing the driver, so the
navigator is not released on every exit path. -/
theorem crawl_error_run_skips_quit :
    (get_data_from_google "x" [lastPage]).quitCalled = false ∧
    (get_data_from_google "x" [lastPage]).error.isSome = true := by
  constructor
  · rfl
  · rfl

/-- Claim C2 as amended: the driver is released exactly once on every run
that terminates normally (including runs ended early by the links-wait
timeout), and is not released on a run ended by an uncaught propagated
failure. -/
theorem crawl_quit_iff_normal (role : String) (pages : List ResultsPage) :
    (get_data_from_google role pages).quitCalled =
      (get_data_from_google role pages).error.isNone := by
  unfold get_data_from_google
  rcases hc : crawlLoop role pages [] with e | d
  · simp
  · simp

/-! ## Claim C9 -/

theorem extractExpItem_ok_shape {it : ExpItem} {e : Experience}
    (hok : extractExpItem it = .ok e) :
    ∃ e3, e = expDescription (expLocation e3 it.location)
      it.descLess it.descMore := by
  unfold extractExpItem at hok
  cases hr : it.roleText with
  | none =>
    rw [hr] at hok
    exact absurd hok (by simp)
  | some rt =>
    rw [hr] at hok
    obtain ⟨e2, hd, hok2⟩ := exceptBind_ok hok
    obtain ⟨e3, hu, hok3⟩ := exceptBind_ok hok2
    exact ⟨e3, by simpa using hok3.symm⟩

theorem extractProjItem_ok_shape {it : ProjItem} {p : Project}
    (hok : extractProjItem it = .ok p) :
    ∃ p1, p = projLink (projDescription p1 it.descLess it.descMore)
      it.link := by
  unfold extractProjItem at hok
  cases ht : it.title with
  | none =>
    rw [ht] at hok
    exact absurd hok (by simp)
  | some t =>
    rw [ht] at hok
    exact ⟨projDates (projBase t) it.dateRange, by simpa using hok.symm⟩

/-- Claim C9: in both the Experience and the Projects extractor, when a list
item carries both a collapsed and an expanded description node the expanded
node's text is stored, and the collapsed node's text is stored only when no
expanded node exists. -/
theorem expanded_description_preferred :
    (∀ (it : ExpItem) (a b : String) (e : Experience),
      it.descLess = some a → it.descMore = some b →
      extractExpItem it = .ok e →
      e.description = some (extract_text_only b)) ∧
    (∀ (it : ExpItem) (a : String) (e : Experience),
      it.descLess = some a → it.descMore = none →
      extractExpItem it = .ok e →
      e.description = some (extract_text_only a)) ∧
    (∀ (it : ProjItem) (a b : String) (p : Project),
      it.descLess = some a → it.descMore = some b →
      extractProjItem it = .ok p →
      p.description = some (extract_text_only b)) ∧
    (∀ (it : ProjItem) (a : String) (p : Project),
      it.descLess = some a → it.descMore = none →
      extractProjItem it = .ok p →
      p.description = some (extract_text_only a)) := by
  refine ⟨?_, ?_, ?_, ?_⟩
  · intro it a b e hl hm hok
    obtain ⟨e3, he⟩ := extractExpItem_ok_shape hok
    rw [he, hl, hm]
    rfl
  · intro it a e hl hm hok
    obtain ⟨e3, he⟩ := extractExpItem_ok_shape hok
    rw [he, hl, hm]
    rfl
  · intro it a b p hl hm hok
    obtain ⟨p1, hp⟩ := extractProjItem_ok_shape hok
    rw [hp, projLink_description, hl, hm]
    rfl
  · intro it a p hl hm hok
    obtain ⟨p1, hp⟩ := extractProjItem_ok_shape hok
    rw [hp, projLink_description, hl, hm]
    rfl

/-- Witness for expanded_description_preferred at a concrete item. -/
theorem expanded_description_preferred_witness :
    bothDescExpRecord.description = some (extract_text_only "long") :=
  expanded_description_preferred.1 bothDescExpItem "short" "long"
    bothDescExpRecord rfl rfl rfl

/-! ## Claim C10 -/

theorem extractExpItem_noHyphen_error {it : ExpItem} {d : String}
    (h2 : it.dateRange = some d)
    (hnh : ('-') ∉ (extract_text_only d).data) :
    ∃ e0, extractExpItem it = .error e0 := by
  cases hr : it.roleText with
  | none => exact ⟨.attrError, by simp only [extractExpItem, hr]⟩
  | some rt =>
    refine ⟨.indexError, ?_⟩
    have hd : expAfterDates (expBase rt it.job) it.dateRange =
        .error .indexError := by
      rw [h2]
      simp only [expAfterDates]
      rw [splitChar_no_sep hnh]
      rfl
    simp only [extractExpItem, hr, hd, exbind_err]

theorem projDates_end_date_noHyphen (p : Project) {d : String}
    (hnh : ('-') ∉ (extract_text_only d).data) :
    (projDates p (some d)).end_date = none := by
  simp only [projDates]
  rw [splitChar_no_sep hnh]
  rfl

theorem expLocation_start_date (e : Experience) (loc : Option String) :
    (expLocation e loc).start_date = e.start_date := by
  cases loc <;> rfl

theorem expDescription_start_date (e : Experience) (less more : Option String) :
    (expDescription e less more).start_date = e.start_date := by
  cases less <;> cases more <;> rfl

theorem expAfterDates_some_seg {e : Experience} {d : String} {seg : List Char}
    (h4 : (splitChar '-' (extract_text_only d).data)[1]? = some seg) :
    expAfterDates e (some d) = .ok { e with
      start_date := some (splitChar '-' (extract_text_only d).data).headI.asString,
      end_date := some seg.asString } := by
  simp only [expAfterDates]
  rw [h4]

/-- Claim C10: the Experience extractor indexes the second hyphen segment
unguarded, so a date-range text without a hyphen aborts extraction of the
whole section, while with a hyphen both dates are assigned from the first
two segments; the Projects extractor guards the second segment and leaves
end_date absent when the split has a single segment. -/
theorem experience_hyphen_unguarded_projects_guarded :
    (∀ (items : List ExpItem) (it : ExpItem) (d : String), it ∈ items →
      it.dateRange = some d → ('-') ∉ (extract_text_only d).data →
      ∃ e, get_experience items = .error e) ∧
    (∀ (it : ProjItem) (t d : String), it.title = some t →
      it.dateRange = some d → ('-') ∉ (extract_text_only d).data →
      ∃ p, extractProjItem it = .ok p ∧ p.end_date = none) ∧
    (∀ (it : ExpItem) (rt d : String) (seg : List Char),
      it.roleText = some rt → it.dateRange = some d → it.duration = none →
      (splitChar '-' (extract_text_only d).data)[1]? = some seg →
      ∃ e, extractExpItem it = .ok e ∧
        e.start_date =
          some (splitChar '-' (extract_text_only d).data).headI.asString ∧
        e.end_date = some seg.asString) := by
  refine ⟨?_, ?_, ?_⟩
  · intro items it d hmem h2 hnh
    exact mapExcept_error_of_mem hmem (extractExpItem_noHyphen_error h2 hnh)
  · intro it t d ht h2 hnh
    refine ⟨projLink (projDescription (projDates (projBase t) it.dateRange)
      it.descLess it.descMore) it.link, ?_, ?_⟩
    · unfold extractProjItem
      rw [ht]
    · rw [projLink_end_date, projDescription_end_date, h2,
        projDates_end_date_noHyphen (projBase t) hnh]
  · intro it rt d seg hr h2 hdur h4
    refine ⟨expDescription (expLocation { expBase rt it.job with
      start_date := some (splitChar '-' (extract_text_only d).data).headI.asString,
      end_date := some seg.asString } it.location) it.descLess it.descMore,
      ?_, ?_, ?_⟩
    · simp only [extractExpItem, hr, h2, expAfterDates_some_seg h4, exbind_ok,
        hdur, expAfterDuration]
    · rw [expDescription_start_date, expLocation_start_date]
    · rw [expDescription_end_date, expLocation_end_date]

/-- Witness for experience_hyphen_unguarded_projects_guarded at concrete
items. -/
theorem experience_hyphen_unguarded_projects_guarded_witness :
    (∃ e, get_experience [noHyphenExpItem] = .error e) ∧
    (∃ p, extractProjItem noHyphenProjItem = .ok p ∧ p.end_date = none) ∧
    (∃ e, extractExpItem hyphenExpItem = .ok e ∧
      e.start_date = some (splitChar '-'
        (extract_text_only "2019-2021").data).headI.asString ∧
      e.end_date = some (List.asString ("2021".data))) :=
  ⟨experience_hyphen_unguarded_projects_guarded.1 [noHyphenExpItem]
      noHyphenExpItem "2020" (by decide) rfl (by decide),
   experience_hyphen_unguarded_projects_guarded.2.1 noHyphenProjItem
      "p" "2020" rfl rfl (by decide),
   experience_hyphen_unguarded_projects_guarded.2.2 hyphenExpItem
      "r" "2019-2021" ("2021".data) rfl rfl rfl rfl⟩

/-! ## Claim C5 -/

/-- Claim C5, counterexample: line 83 passes the duration text to re.sub as a
regular-expression pattern, not as a literal substring.  For the experience
item with date range 2020-aXc and duration a.c, the pattern a.c matches the
whole end segment aXc (the period matches any character), so the stored
end_date is the empty string, while removal of the duration as a substring
would leave aXc unchanged. -/
theorem experience_duration_regex_counterexample :
    (extractExpItem regexDurationItem = .ok regexDurationRecord ∧
      regexDurationRecord.end_date = some "") ∧
    removeSubAll ("a.c").data ("aXc").data = ("aXc").data := by
  refine ⟨⟨rfl, ?_⟩, ?_⟩
  · show some (List.asString (subAll acPattern ('a' :: 'X' :: 'c' :: []))) =
      some ""
    have hm : matchP acPattern ('a' :: 'X' :: 'c' :: []) = some [] := rfl
    rw [subAll_cons_some hm (by simp), subAll_nil]
    rfl
  · show removeSubAll ('a' :: '.' :: 'c' :: []) ('a' :: 'X' :: 'c' :: []) =
      'a' :: 'X' :: 'c' :: []
    rw [removeSubAll_cons_miss (by decide), removeSubAll_cons_miss (by decide),
      removeSubAll_cons_miss (by decide), removeSubAll_nil]

/-- Claim C5 as amended: when both a date-range and a duration span are
present, the finalized end_date is the second hyphen segment with every
match of the duration text, read as a regular-expression pattern, removed;
whenever the duration text contains neither a period nor a plus sign this
coincides with removing every occurrence of the duration substring, and the
extraction of the item succeeds. -/
theorem experience_duration_substring_when_literal
    (it : ExpItem) (rt d u : String) (seg : List Char)
    (h1 : it.roleText = some rt) (h2 : it.dateRange = some d)
    (h3 : it.duration = some u)
    (h4 : (splitChar '-' (extract_text_only d).data)[1]? = some seg)
    (h5 : ∀ c ∈ (extract_text_only u).data, c ≠ '.' ∧ c ≠ '+') :
    ∃ e, extractExpItem it = .ok e ∧
      e.end_date = some (List.asString
        (removeSubAll (extract_text_only u).data seg)) := by
  have hu : expAfterDuration { expBase rt it.job with
      start_date := some (splitChar '-' (extract_text_only d).data).headI.asString,
      end_date := some seg.asString } (some u) = .ok { expBase rt it.job with
      start_date := some (splitChar '-' (extract_text_only d).data).headI.asString,
      duration := some (extract_text_only u),
      end_date := some (List.asString
        (subAll (lits (extract_text_only u).data) seg)) } := by
    simp only [expAfterDuration]
    rw [parsePat_noMeta h5]
    rfl
  refine ⟨expDescription (expLocation { expBase rt it.job with
      start_date := some (splitChar '-' (extract_text_only d).data).headI.asString,
      duration := some (extract_text_only u),
      end_date := some (List.asString
        (subAll (lits (extract_text_only u).data) seg)) } it.location)
      it.descLess it.descMore, ?_, ?_⟩
  · simp only [extractExpItem, h1, h2, expAfterDates_some_seg h4, exbind_ok,
      h3, hu]
  · rw [expDescription_end_date, expLocation_end_date]
    show some (List.asString (subAll (lits (extract_text_only u).data) seg)) = _
    rw [subAll_lits]

/-- Witness for experience_duration_substring_when_literal at a concrete
item. -/
theorem experience_duration_substring_when_literal_witness :
    ∃ e, extractExpItem literalDurationItem = .ok e ∧
      e.end_date = some (List.asString
        (removeSubAll (extract_text_only "21").data ("2021".data))) :=
  experience_duration_substring_when_literal literalDurationItem "r"
    "2019-2021" "21" ("2021".data) rfl rfl rfl rfl (by decide)
